import Mathlib

/-
Verification of the warehouse employee-scheduler core (config.py, database.py,
metrics_service.py, schedule_service.py).

Conventions of the shallow embedding:
* Python numbers (ints and floats) are modelled as exact fractions `PyQ`
  (integer numerator, positive integer denominator).  The Python code uses
  binary floating point; all the properties proved here are about the exact
  arithmetic the code's formulas denote.  `round` is Python's built-in
  round-half-to-even; `round(x, 2)` rounds at two decimal places.
* Python strings are `List Char`; `.lower()` is ASCII lowercasing, `\s` is the
  ASCII whitespace class.
* Python dicts are association lists in insertion order: assignment to an
  existing key updates it in place, assignment to a fresh key appends.
* Fallible code is embedded with `Option`: a `none` result in an inner
  computation marks the exact points where the Python body raises and is
  caught by an enclosing `try/except`.
-/

/-! ## Python numeric values: exact fractions -/

/-- Exact fraction model of a Python number: numerator over positive
denominator, not necessarily reduced. -/
structure PyQ where
  num : ℤ
  den : ℤ
  den_pos : 0 < den
deriving DecidableEq

/-- Embed an integer. -/
def PyQ.ofInt (n : ℤ) : PyQ := ⟨n, 1, by omega⟩

/-- Fraction literal with explicit positive denominator. -/
def pq (a b : ℤ) (h : 0 < b) : PyQ := ⟨a, b, h⟩

/-- Python `+` on numbers. -/
def PyQ.add (p q : PyQ) : PyQ :=
  ⟨p.num * q.den + q.num * p.den, p.den * q.den, mul_pos p.den_pos q.den_pos⟩

/-- Python `*` on numbers. -/
def PyQ.mul (p q : PyQ) : PyQ :=
  ⟨p.num * q.num, p.den * q.den, mul_pos p.den_pos q.den_pos⟩

/-- Python `/` on numbers (the scheduler only ever divides by the positive
constants `CASES_PER_PALLET` and the effective capacity, so the
division-by-zero branch is junk that is never reached). -/
def PyQ.div (p q : PyQ) : PyQ :=
  if h : 0 < q.num then ⟨p.num * q.den, p.den * q.num, mul_pos p.den_pos h⟩
  else if h' : q.num < 0 then
    ⟨-(p.num * q.den), p.den * (-q.num), mul_pos p.den_pos (by omega)⟩
  else ⟨0, 1, by omega⟩

/-- Python `<` on numbers. -/
def PyQ.lt (p q : PyQ) : Prop := p.num * q.den < q.num * p.den

instance (p q : PyQ) : Decidable (PyQ.lt p q) := Int.decLt _ _

/-- Python `<=` on numbers. -/
def PyQ.le (p q : PyQ) : Prop := p.num * q.den ≤ q.num * p.den

instance (p q : PyQ) : Decidable (PyQ.le p q) := Int.decLe _ _

/-- Python truthiness of a number: falsy exactly when the value is zero. -/
def PyQ.isZero (p : PyQ) : Prop := p.num = 0

instance (p : PyQ) : Decidable (PyQ.isZero p) := Int.instDecidableEq _ _

/-- Python `round(x)`: round half to even, returning an int.  The fractional
part of `x` is `(num - floor * den) / den`, so the comparisons with one half
are done after cross-multiplying by the positive denominator. -/
def pyround (q : PyQ) : ℤ :=
  let n := Int.fdiv q.num q.den
  let r := q.num - n * q.den
  if 2 * r < q.den then n
  else if q.den < 2 * r then n + 1
  else if n % 2 = 0 then n else n + 1

/-- Python `round(x, 2)`: round half to even at two decimal places. -/
def pyround2 (q : PyQ) : PyQ :=
  ⟨pyround (q.mul (PyQ.ofInt 100)), 100, by omega⟩

/-! ## Python strings -/

/-- Characters of a string literal. -/
def str (s : String) : List Char := s.data

/-- Python `\s` (ASCII whitespace). -/
def isWs (c : Char) : Bool :=
  (c = ' ') || (c = '\t') || (c = '\n') || (c = '\r') || (c = '\x0b') || (c = '\x0c')

/-- Python `str.lower` on one character (ASCII range). -/
def lowerChar (c : Char) : Char :=
  if 65 ≤ c.toNat ∧ c.toNat ≤ 90 then Char.ofNat (c.toNat + 32) else c

/-- Python `str.lower` (ASCII range). -/
def lowerL (l : List Char) : List Char := l.map lowerChar

/-- Python `a in b` for strings, one-sided: does `needle` start `hay`. -/
def startsWithL : List Char → List Char → Bool
  | [], _ => true
  | _ :: _, [] => false
  | a :: as, b :: bs => a = b && startsWithL as bs

/-- Python `needle in hay` substring containment (an empty needle is
contained in everything, as in Python). -/
def containsL (needle : List Char) : List Char → Bool
  | [] => needle.isEmpty
  | b :: bs => startsWithL needle (b :: bs) || containsL needle bs

/-- Python `str.strip()`: drop leading and trailing whitespace. -/
def stripL (l : List Char) : List Char :=
  ((l.dropWhile fun c => isWs c).reverse.dropWhile fun c => isWs c).reverse

/-- The regex substitution `re.sub(rʼsdollarʼ, ʼʼ, role)`: remove one
trailing letter s if present. -/
def dropTrailingS (l : List Char) : List Char :=
  if l.getLast? = some 's' then l.dropLast else l

/-- Worker for `collapseWs`; the flag records whether the previous character
was whitespace (i.e. we are inside a run already replaced by one
underscore). -/
def collapseGo : Bool → List Char → List Char
  | _, [] => []
  | inRun, c :: cs =>
    if isWs c then
      (if inRun then collapseGo true cs else '_' :: collapseGo true cs)
    else c :: collapseGo false cs

/-- The regex substitution replacing every maximal whitespace run by a single
underscore. -/
def collapseWs (l : List Char) : List Char := collapseGo false l

/-! ## database.py: normalize_role -/

/-- database.py `normalize_role`: lowercase and strip, remove one trailing
plural s, replace whitespace runs with underscores. -/
def normalize_role (role : List Char) : List Char :=
  collapseWs (dropTrailingS (stripL (lowerL role)))

/-! ### Helper lemmas about the string primitives -/

theorem toNat_ofNat_of_bounds (n : ℕ) (h1 : 97 ≤ n) (h2 : n ≤ 122) :
    (Char.ofNat n).toNat = n := by
  have hv : n.isValidChar := Or.inl (by omega)
  rw [Char.ofNat, dif_pos hv]
  simp [Char.toNat, Char.ofNatAux, UInt32.toNat, BitVec.toNat_ofNatLt]

theorem lowerChar_idem (c : Char) : lowerChar (lowerChar c) = lowerChar c := by
  unfold lowerChar
  by_cases h : 65 ≤ c.toNat ∧ c.toNat ≤ 90
  · rw [if_pos h]
    have ht : (Char.ofNat (c.toNat + 32)).toNat = c.toNat + 32 :=
      toNat_ofNat_of_bounds _ (by omega) (by omega)
    rw [if_neg]
    rw [ht]
    omega
  · rw [if_neg h, if_neg h]

theorem mem_collapseGo {c : Char} {b : Bool} {l : List Char} :
    c ∈ collapseGo b l → (c = '_' ∨ (c ∈ l ∧ isWs c = false)) := by
  induction l generalizing b with
  | nil => intro h; simp [collapseGo] at h
  | cons d ds ih =>
    intro h
    by_cases hw : isWs d
    · simp only [collapseGo, hw, if_true] at h
      cases b with
      | true =>
        rcases ih h with h' | h'
        · exact Or.inl h'
        · exact Or.inr ⟨List.mem_cons_of_mem _ h'.1, h'.2⟩
      | false =>
        rcases List.mem_cons.mp h with h' | h'
        · exact Or.inl h'
        · rcases ih h' with h'' | h''
          · exact Or.inl h''
          · exact Or.inr ⟨List.mem_cons_of_mem _ h''.1, h''.2⟩
    · simp only [collapseGo, hw, if_false] at h
      rcases List.mem_cons.mp h with h' | h'
      · subst h'
        exact Or.inr ⟨List.mem_cons_self _ _, by simpa using hw⟩
      · rcases ih h' with h'' | h''
        · exact Or.inl h''
        · exact Or.inr ⟨List.mem_cons_of_mem _ h''.1, h''.2⟩

theorem noWs_collapseGo {b : Bool} {l : List Char} {c : Char}
    (h : c ∈ collapseGo b l) : isWs c = false := by
  rcases mem_collapseGo h with h' | h'
  · subst h'; rfl
  · exact h'.2

theorem collapseGo_of_noWs {l : List Char} (h : ∀ c ∈ l, isWs c = false) :
    ∀ b, collapseGo b l = l := by
  induction l with
  | nil => intro b; rfl
  | cons d ds ih =>
    intro b
    have hd : isWs d = false := h d (List.mem_cons_self _ _)
    simp only [collapseGo, hd, Bool.false_eq_true, if_false]
    rw [ih (fun c hc => h c (List.mem_cons_of_mem _ hc))]

theorem dropWhile_eq_self_of_noWs {l : List Char}
    (h : ∀ c ∈ l, isWs c = false) : (l.dropWhile fun c => isWs c) = l := by
  cases l with
  | nil => rfl
  | cons d ds =>
    have hd : isWs d = false := h d (List.mem_cons_self _ _)
    simp [List.dropWhile, hd]

theorem stripL_of_noWs {l : List Char} (h : ∀ c ∈ l, isWs c = false) :
    stripL l = l := by
  unfold stripL
  rw [dropWhile_eq_self_of_noWs h]
  rw [dropWhile_eq_self_of_noWs (fun c hc => h c (List.mem_reverse.mp hc))]
  exact List.reverse_reverse l

theorem lowerL_eq_self_of_fixed {l : List Char}
    (h : ∀ c ∈ l, lowerChar c = c) : lowerL l = l := by
  unfold lowerL
  calc l.map lowerChar = l.map id := List.map_congr_left h
    _ = l := List.map_id l

theorem mem_dropTrailingS {c : Char} {l : List Char}
    (h : c ∈ dropTrailingS l) : c ∈ l := by
  unfold dropTrailingS at h
  split at h
  · exact List.dropLast_subset _ h
  · exact h

theorem mem_stripL {c : Char} {l : List Char} (h : c ∈ stripL l) : c ∈ l := by
  unfold stripL at h
  rw [List.mem_reverse] at h
  have h1 := (List.dropWhile_sublist (l := (l.dropWhile fun c => isWs c).reverse)
    (p := fun c => isWs c)).subset h
  rw [List.mem_reverse] at h1
  exact (List.dropWhile_sublist (l := l) (p := fun c => isWs c)).subset h1

theorem normalize_role_chars_fixed {c : Char} {s : List Char}
    (h : c ∈ normalize_role s) : lowerChar c = c := by
  rcases mem_collapseGo h with h' | h'
  · subst h'; rfl
  · have hmem : c ∈ lowerL s := mem_stripL (mem_dropTrailingS h'.1)
    rcases List.mem_map.mp hmem with ⟨d, _, rfl⟩
    exact lowerChar_idem d

theorem normalize_role_noWs {c : Char} {s : List Char}
    (h : c ∈ normalize_role s) : isWs c = false :=
  noWs_collapseGo h

/-! ### Claim C7 -/

/-- C7 counterexample: `normalize_role` is not idempotent.  The input "ss"
normalizes to "s" (one trailing s removed), and normalizing again yields "",
so the claimed idempotence equation fails at the concrete string "ss". -/
theorem normalize_role_not_idempotent :
    normalize_role (normalize_role (str "ss")) ≠ normalize_role (str "ss") := by
  decide

/-- C7 (amended): `normalize_role` is idempotent on every string whose
normalization does not end in the letter s (the only inputs on which a
second pass changes anything are those normalizing to a string with a
trailing s, i.e. inputs whose stripped lowercase form ends in "ss"); and
"Forklift Drivers" and "forklift_driver" both normalize to the canonical key
"forklift_driver". -/
theorem normalize_role_idempotent_unless_trailing_s :
    (∀ s : List Char, (normalize_role s).getLast? ≠ some 's' →
      normalize_role (normalize_role s) = normalize_role s) ∧
    normalize_role (str "Forklift Drivers") = str "forklift_driver" ∧
    normalize_role (str "forklift_driver") = str "forklift_driver" := by
  refine ⟨fun s hs => ?_, by decide, by decide⟩
  have hfix : lowerL (normalize_role s) = normalize_role s :=
    lowerL_eq_self_of_fixed fun c hc => normalize_role_chars_fixed hc
  have hnws : ∀ c ∈ normalize_role s, isWs c = false :=
    fun c hc => normalize_role_noWs hc
  unfold normalize_role
  rw [show lowerL (collapseWs (dropTrailingS (stripL (lowerL s)))) =
      lowerL (normalize_role s) from rfl, hfix]
  rw [stripL_of_noWs hnws]
  rw [show dropTrailingS (normalize_role s) = normalize_role s from
    if_neg hs]
  exact collapseGo_of_noWs hnws false

/-- C7 witness: the amended idempotence theorem applied at the concrete
string "Forklift Drivers", whose normalization "forklift_driver" has no
trailing s. -/
theorem normalize_role_idempotent_witness :
    normalize_role (normalize_role (str "Forklift Drivers")) =
      normalize_role (str "Forklift Drivers") :=
  normalize_role_idempotent_unless_trailing_s.1 (str "Forklift Drivers")
    (by decide)

/-! ## config.py constants -/

/-- Shorthand for the number zero. -/
def q0 : PyQ := PyQ.ofInt 0

/-- config.py `HOURS_PER_SHIFT = 7.5`. -/
def HOURS_PER_SHIFT : PyQ := pq 15 2 (by omega)

/-- config.py `WORKFORCE_EFFICIENCY = 0.85`. -/
def WORKFORCE_EFFICIENCY : PyQ := pq 17 20 (by omega)

/-- config.py `CASES_PER_PALLET = 75`. -/
def CASES_PER_PALLET : PyQ := PyQ.ofInt 75

/-! ## metrics_service.py data model -/

/-- Entries of `metrics_summaries["inbound"]`; a missing key means the code
falls back to the hardcoded default rate. -/
structure InboundMetrics where
  avg_offload_time : Option PyQ
  avg_scan_time : Option PyQ
  avg_putaway_time : Option PyQ
deriving DecidableEq

/-- Entries of `metrics_summaries["picking"]`. -/
structure PickingMetrics where
  avg_pick_time : Option PyQ
  avg_scan_time : Option PyQ
  avg_wrap_time : Option PyQ
deriving DecidableEq

/-- Entries of `metrics_summaries["load"]`. -/
structure LoadMetrics where
  avg_load_time_per_pallet : Option PyQ
deriving DecidableEq

/-- A metrics summary: the three operation keys the code tests with `in`. -/
structure MetricsSummaries where
  inbound : Option InboundMetrics
  picking : Option PickingMetrics
  load : Option LoadMetrics
deriving DecidableEq

/-- config.py `DEFAULT_METRICS`. -/
def DEFAULT_METRICS : MetricsSummaries :=
  { inbound := some ⟨some (pq 5 2 (by omega)), some (pq 3 20 (by omega)),
      some (pq 5 2 (by omega))⟩
    picking := some ⟨some (PyQ.ofInt 3), some (pq 3 20 (by omega)),
      some (pq 3 4 (by omega))⟩
    load := some ⟨some (PyQ.ofInt 3)⟩ }

/-- metrics_service.py `get_metrics_summary`. -/
def get_metrics_summary : MetricsSummaries := DEFAULT_METRICS

/-- The forecast-data dictionary as read by `calculate_required_roles`
(lines 29-33); a missing key defaults to 0, so absent entries are the value
zero.  `cases_to_pick` is read but never used afterwards. -/
structure ForecastData where
  daily_incoming_pallets : PyQ
  daily_shipping_pallets : PyQ
  daily_order_qty : PyQ
  staged_pallets : PyQ
  cases_to_pick : PyQ
deriving DecidableEq

/-- The `"inbound"` bucket of the final role requirement. -/
structure InboundRoles where
  forklift_driver : ℤ
  receiver : ℤ
  bendi_driver : ℤ
deriving DecidableEq

/-- The `"picking"` bucket of the final role requirement. -/
structure PickingRoles where
  bendi_driver : ℤ
  general_labor : ℤ
deriving DecidableEq

/-- The `"loading"` bucket of the final role requirement. -/
structure LoadingRoles where
  forklift_driver : ℤ
deriving DecidableEq

/-- The value returned by `calculate_required_roles`: the normal path
populates all four operation keys, the exception fallback has only
`replenishment`. -/
structure FinalRoles where
  inbound : Option InboundRoles
  picking : Option PickingRoles
  loading : Option LoadingRoles
  replenishment_staff : ℤ
deriving DecidableEq

/-- The fallback requirement returned by the `except` handler
(lines 117-122): replenishment staff 1 and nothing else. -/
def minimalFallback : FinalRoles :=
  { inbound := none, picking := none, loading := none, replenishment_staff := 1 }

/-! ## metrics_service.py calculate_required_roles -/

/-- Line 36: `effective_work_mins_per_person = HOURS_PER_SHIFT * 60 *
WORKFORCE_EFFICIENCY`. -/
def effective_work_mins_per_person : PyQ :=
  (HOURS_PER_SHIFT.mul (PyQ.ofInt 60)).mul WORKFORCE_EFFICIENCY

/-- Line 37: `round(total_cases / CASES_PER_PALLET, 2)`. -/
def calculated_shipping_pallets (f : ForecastData) : PyQ :=
  pyround2 (f.daily_order_qty.div CASES_PER_PALLET)

/-- Line 38: the combined shipping-pallet count, observed plus calculated. -/
def shipTotal (f : ForecastData) : PyQ :=
  f.daily_shipping_pallets.add (calculated_shipping_pallets f)

/-- The recurring pattern `max(1, round(workload_minutes /
effective_work_mins_per_person))`. -/
def headcount (minutes : PyQ) : ℤ :=
  max 1 (pyround (minutes.div effective_work_mins_per_person))

/-- Line 47: `required_roles["forklift_driver_inbound"]`, set only when the
inbound metrics key exists and incoming pallets are positive (line 41). -/
def forklift_driver_inbound (m : MetricsSummaries) (f : ForecastData) : Option ℤ :=
  match m.inbound with
  | some inb =>
    if PyQ.lt q0 f.daily_incoming_pallets then
      some (headcount (f.daily_incoming_pallets.mul
        (inb.avg_offload_time.getD (pq 43 20 (by omega)))))
    else none
  | none => none

/-- Line 48: `required_roles["scanner_inbound"]`. -/
def scanner_inbound (m : MetricsSummaries) (f : ForecastData) : Option ℤ :=
  match m.inbound with
  | some inb =>
    if PyQ.lt q0 f.daily_incoming_pallets then
      some (headcount (f.daily_incoming_pallets.mul
        (inb.avg_scan_time.getD (pq 3 20 (by omega)))))
    else none
  | none => none

/-- Line 49: `required_roles["bendi_driver_inbound"]`. -/
def bendi_driver_inbound (m : MetricsSummaries) (f : ForecastData) : Option ℤ :=
  match m.inbound with
  | some inb =>
    if PyQ.lt q0 f.daily_incoming_pallets then
      some (headcount (f.daily_incoming_pallets.mul
        (inb.avg_putaway_time.getD (PyQ.ofInt 3))))
    else none
  | none => none

/-- Line 52: the gate `shipping_pallets > 0 or total_cases > 0` (with
`shipping_pallets` already rebound to the combined value by line 38). -/
def pickLoadGate (f : ForecastData) : Prop :=
  PyQ.lt q0 (shipTotal f) ∨ PyQ.lt q0 f.daily_order_qty

instance (f : ForecastData) : Decidable (pickLoadGate f) := by
  unfold pickLoadGate; infer_instance

/-- Line 60: `required_roles["bendi_driver_picking"]`, set only under the
line-52 gate when the picking metrics key exists. -/
def bendi_driver_picking (m : MetricsSummaries) (f : ForecastData) : Option ℤ :=
  if pickLoadGate f then
    match m.picking with
    | some p =>
      some (headcount ((shipTotal f).mul (p.avg_pick_time.getD (PyQ.ofInt 3))))
    | none => none
  else none

/-- Line 61: `required_roles["scanner_picking"]`. -/
def scanner_picking (m : MetricsSummaries) (f : ForecastData) : Option ℤ :=
  if pickLoadGate f then
    match m.picking with
    | some p =>
      some (headcount ((shipTotal f).mul (p.avg_scan_time.getD (pq 3 20 (by omega)))))
    | none => none
  else none

/-- Line 62: `required_roles["packer_wrapping"]`. -/
def packer_wrapping (m : MetricsSummaries) (f : ForecastData) : Option ℤ :=
  if pickLoadGate f then
    match m.picking with
    | some p =>
      some (headcount ((shipTotal f).mul (p.avg_wrap_time.getD (pq 3 4 (by omega)))))
    | none => none
  else none

/-- Line 66: `load.get("avg_load_time_per_pallet", 2.5)`. -/
def load_time_per_pallet (L : LoadMetrics) : PyQ :=
  L.avg_load_time_per_pallet.getD (pq 5 2 (by omega))

/-- Lines 64-80, the loading block, as a case split.  The outer `none` marks
the KeyError raised at line 79: the `+=` needs the `"forklift_driver_loading"`
key, which line 74 created only when `staged_pallets` was truthy.  The inner
option is the final value of that key (absent when neither branch ran). -/
def loadingReq (m : MetricsSummaries) (f : ForecastData) : Option (Option ℤ) :=
  if pickLoadGate f then
    match m.load with
    | some L =>
      if PyQ.lt q0 (shipTotal f) then
        if f.staged_pallets.isZero then none
        else some (some (headcount (f.staged_pallets.mul (load_time_per_pallet L)) +
                         headcount ((shipTotal f).mul (load_time_per_pallet L))))
      else
        if f.staged_pallets.isZero then some none
        else some (some (headcount (f.staged_pallets.mul (load_time_per_pallet L))))
    | none => some none
  else some none

/-- Lines 84-113: combine the per-stream counts (each `.get(key, 0)`), add
the consolidation staff (10% of total headcount, floored at 1), and build the
final nested structure.  `fdl` is the `"forklift_driver_loading"` entry. -/
def normalRoles (m : MetricsSummaries) (f : ForecastData) (fdl : Option ℤ) : FinalRoles :=
  let fdi := (forklift_driver_inbound m f).getD 0
  let sci := (scanner_inbound m f).getD 0
  let bdi := (bendi_driver_inbound m f).getD 0
  let bdp := (bendi_driver_picking m f).getD 0
  let scp := (scanner_picking m f).getD 0
  let pw := (packer_wrapping m f).getD 0
  let fdlD := fdl.getD 0
  let total_headcount := (fdi + fdlD) + (bdi + bdp) + (sci + scp) + pw
  { inbound := some ⟨fdi, sci, bdi⟩
    picking := some ⟨bdp, scp + pw⟩
    loading := some ⟨fdlD⟩
    replenishment_staff :=
      max 1 (pyround ((PyQ.ofInt total_headcount).mul (pq 1 10 (by omega)))) }

/-- The body of the `try` block of `calculate_required_roles`: `none` iff the
body raises (the only raising site with numeric inputs is the line-79
KeyError inside `loadingReq`). -/
def calcInner (m : MetricsSummaries) (f : ForecastData) : Option FinalRoles :=
  (loadingReq m f).map (normalRoles m f)

/-- metrics_service.py `calculate_required_roles`: the try body with the
`except` handler returning the minimal fallback. -/
def calculate_required_roles (m : MetricsSummaries) (f : ForecastData) : FinalRoles :=
  (calcInner m f).getD minimalFallback

/-! ### Claims C2, C3, C4 -/

theorem pos_not_isZero {p : PyQ} (h : PyQ.lt q0 p) : ¬ p.isZero := by
  unfold PyQ.lt q0 PyQ.ofInt at h
  unfold PyQ.isZero
  have hpos : 0 < p.num := by simpa using h
  omega

theorem loadingReq_pos_pos {m : MetricsSummaries} {f : ForecastData} {L : LoadMetrics}
    (hL : m.load = some L) (hstaged : ¬ f.staged_pallets.isZero)
    (hship : PyQ.lt q0 (shipTotal f)) :
    loadingReq m f =
      some (some (headcount (f.staged_pallets.mul (load_time_per_pallet L)) +
        headcount ((shipTotal f).mul (load_time_per_pallet L)))) := by
  simp only [loadingReq, hL]
  rw [if_pos (show pickLoadGate f from Or.inl hship), if_pos hship, if_neg hstaged]

/-- C2: whenever the metrics summary has a `"load"` entry and both the staged
pallet count and the combined (observed plus calculated) shipping pallet
count are strictly positive, the returned loading forklift-driver headcount
is the sum of the two independently computed components
`max(1, round(workload / effective_capacity))`, hence at least 2. -/
theorem calculate_required_roles_loading_sum (m : MetricsSummaries) (f : ForecastData)
    (L : LoadMetrics) (hL : m.load = some L)
    (hstaged : PyQ.lt q0 f.staged_pallets)
    (hship : PyQ.lt q0 (shipTotal f)) :
    (calculate_required_roles m f).loading =
      some ⟨headcount (f.staged_pallets.mul (load_time_per_pallet L)) +
            headcount ((shipTotal f).mul (load_time_per_pallet L))⟩ ∧
    2 ≤ headcount (f.staged_pallets.mul (load_time_per_pallet L)) +
        headcount ((shipTotal f).mul (load_time_per_pallet L)) := by
  have hz : ¬ f.staged_pallets.isZero := pos_not_isZero hstaged
  constructor
  · unfold calculate_required_roles calcInner
    rw [loadingReq_pos_pos hL hz hship]
    rfl
  · have h1 : (1:ℤ) ≤ headcount (f.staged_pallets.mul (load_time_per_pallet L)) :=
      le_max_left 1 _
    have h2 : (1:ℤ) ≤ headcount ((shipTotal f).mul (load_time_per_pallet L)) :=
      le_max_left 1 _
    calc (2:ℤ) = 1 + 1 := rfl
      _ ≤ _ := add_le_add h1 h2

/-- Forecast with 50 observed shipping pallets and 10 staged pallets. -/
def forecastBothPos : ForecastData :=
  ⟨PyQ.ofInt 0, PyQ.ofInt 50, PyQ.ofInt 0, PyQ.ofInt 10, PyQ.ofInt 0⟩

/-- C2 witness: the loading-sum theorem applied at the default metrics with
staged_pallets = 10 and shipping_pallets = 50. -/
theorem calculate_required_roles_loading_sum_witness :
    (calculate_required_roles DEFAULT_METRICS forecastBothPos).loading =
      some ⟨headcount (forecastBothPos.staged_pallets.mul
              (load_time_per_pallet ⟨some (PyQ.ofInt 3)⟩)) +
            headcount ((shipTotal forecastBothPos).mul
              (load_time_per_pallet ⟨some (PyQ.ofInt 3)⟩))⟩ ∧
    2 ≤ headcount (forecastBothPos.staged_pallets.mul
          (load_time_per_pallet ⟨some (PyQ.ofInt 3)⟩)) +
        headcount ((shipTotal forecastBothPos).mul
          (load_time_per_pallet ⟨some (PyQ.ofInt 3)⟩)) :=
  calculate_required_roles_loading_sum DEFAULT_METRICS forecastBothPos
    ⟨some (PyQ.ofInt 3)⟩ rfl (by decide) (by decide)

/-- Forecast with a fractional order quantity of 0.3 cases and nothing
else. -/
def forecastTinyOrder : ForecastData :=
  ⟨PyQ.ofInt 0, PyQ.ofInt 0, pq 3 10 (by omega), PyQ.ofInt 0, PyQ.ofInt 0⟩

/-- C3 counterexample: with staged_pallets = 0, a `"load"` metrics entry
present, and unrounded shipping demand `0 + 0.3/75` strictly positive, the
function does NOT return the minimal fallback: `round(0.3/75, 2)` is `0.0`,
so the combined shipping value is zero, line 77's guard fails, no KeyError is
raised, and the normal requirement structure is returned. -/
theorem fallback_claim_counterexample :
    PyQ.lt q0 (forecastTinyOrder.daily_shipping_pallets.add
      (forecastTinyOrder.daily_order_qty.div CASES_PER_PALLET)) ∧
    forecastTinyOrder.staged_pallets.isZero ∧
    DEFAULT_METRICS.load.isSome ∧
    calculate_required_roles DEFAULT_METRICS forecastTinyOrder ≠ minimalFallback := by
  decide

/-- C3 (amended): when the staged-pallet count is zero (or absent), a
`"load"` metrics entry is present, and the code's combined shipping value
(observed shipping pallets plus `round(order_qty / cases_per_pallet, 2)`) is
strictly positive, the loading accumulation at line 79 reads the
uninitialised `"forklift_driver_loading"` key, the KeyError is caught by the
fallback handler, and the minimal requirement `replenishment.staff = 1` is
returned with no other operations. -/
theorem calculate_required_roles_keyerror_fallback (m : MetricsSummaries)
    (f : ForecastData) (hload : m.load.isSome) (hstaged : f.staged_pallets.isZero)
    (hship : PyQ.lt q0 (shipTotal f)) :
    calculate_required_roles m f = minimalFallback := by
  obtain ⟨L, hL⟩ := Option.isSome_iff_exists.mp hload
  have hnone : loadingReq m f = none := by
    simp only [loadingReq, hL]
    rw [if_pos (show pickLoadGate f from Or.inl hship), if_pos hship, if_pos hstaged]
  unfold calculate_required_roles calcInner
  rw [hnone]
  rfl

/-- Forecast with 5 observed shipping pallets and no staged pallets. -/
def forecastZeroStaged : ForecastData :=
  ⟨PyQ.ofInt 0, PyQ.ofInt 5, PyQ.ofInt 0, PyQ.ofInt 0, PyQ.ofInt 0⟩

/-- C3 witness: the KeyError-fallback theorem applied at the default metrics
with shipping_pallets = 5 and staged_pallets = 0. -/
theorem calculate_required_roles_keyerror_fallback_witness :
    calculate_required_roles DEFAULT_METRICS forecastZeroStaged = minimalFallback :=
  calculate_required_roles_keyerror_fallback DEFAULT_METRICS forecastZeroStaged
    (by decide) (by decide) (by decide)

/-- C4: `calculate_required_roles` is total on every metrics summary and
forecast input: when the try body raises (modelled by `calcInner` being
`none`) the result is exactly the minimal fallback, which contains
`replenishment.staff = 1` and nothing else; when the body completes, its
value is returned unchanged. -/
theorem calculate_required_roles_never_raises (m : MetricsSummaries)
    (f : ForecastData) :
    (calcInner m f = none → calculate_required_roles m f = minimalFallback) ∧
    (∀ r, calcInner m f = some r → calculate_required_roles m f = r) ∧
    minimalFallback.inbound = none ∧ minimalFallback.picking = none ∧
    minimalFallback.loading = none ∧ minimalFallback.replenishment_staff = 1 := by
  refine ⟨fun h => ?_, fun r h => ?_, rfl, rfl, rfl, rfl⟩
  · unfold calculate_required_roles
    rw [h]
    rfl
  · unfold calculate_required_roles
    rw [h]
    rfl

/-- C4 witness: the totality theorem applied at the default metrics and the
raising input (shipping demand positive, staged zero), where the body indeed
raises and the fallback is returned. -/
theorem calculate_required_roles_never_raises_witness :
    calculate_required_roles DEFAULT_METRICS forecastZeroStaged = minimalFallback :=
  (calculate_required_roles_never_raises DEFAULT_METRICS forecastZeroStaged).1
    (by decide)

/-! ## Python dicts as insertion-ordered association lists -/

/-- Python `d.get(key)` / `key in d`. -/
def dlookup {α : Type} : List (List Char × α) → List Char → Option α
  | [], _ => none
  | (k, v) :: rest, key => if k = key then some v else dlookup rest key

/-- Python `d[key] = v`: update in place when present, append when fresh. -/
def dset {α : Type} : List (List Char × α) → List Char → α → List (List Char × α)
  | [], key, v => [(key, v)]
  | (k, w) :: rest, key, v =>
    if k = key then (key, v) :: rest else (k, w) :: dset rest key v

theorem dlookup_dset {α : Type} (m : List (List Char × α)) (k k' : List Char)
    (v : α) :
    dlookup (dset m k v) k' = if k' = k then some v else dlookup m k' := by
  induction m with
  | nil =>
    by_cases h : k' = k
    · subst h; simp [dset, dlookup]
    · have h2 : ¬ k = k' := fun hh => h hh.symm
      simp [dset, dlookup, h, h2]
  | cons p rest ih =>
    obtain ⟨pk, pv⟩ := p
    by_cases hp : pk = k
    · subst hp
      by_cases h : k' = pk
      · subst h; simp [dset, dlookup]
      · have h2 : ¬ pk = k' := fun hh => h hh.symm
        simp [dset, dlookup, h, h2]
    · by_cases hq : pk = k'
      · subst hq
        simp [dset, dlookup, hp, fun hh : pk = k => hp hh]
      · simp [dset, dlookup, hp, hq, ih]

theorem dlookup_mem {α : Type} {m : List (List Char × α)} {k : List Char} {v : α}
    (h : dlookup m k = some v) : (k, v) ∈ m := by
  induction m with
  | nil => simp [dlookup] at h
  | cons p rest ih =>
    obtain ⟨pk, pv⟩ := p
    by_cases hp : pk = k
    · subst hp
      simp [dlookup] at h
      subst h
      exact List.mem_cons_self _ _
    · simp [dlookup, hp] at h
      exact List.mem_cons_of_mem _ (ih h)

/-! ## database.py employee records and role matching -/

/-- An employee record as stored in the collection: the ChromaDB id together
with the metadata fields the scheduler reads. -/
structure Employee where
  id : List Char
  original_job_title : List Char
  normalized_job_title : List Char
  active : Bool
  on_leave : Bool
  shift_preferences : List Char
deriving DecidableEq

/-- database.py `is_employee_available` (lines 112-139): active, not on
leave, and no shift preference or a preference containing "day". -/
def is_employee_available (e : Employee) : Bool :=
  e.active && !e.on_leave &&
    (e.shift_preferences.isEmpty || containsL (str "day") e.shift_preferences)

/-- config.py `ROLE_MAPPINGS`. -/
def ROLE_MAPPINGS : List (List Char × List (List Char)) :=
  [(str "forklift_driver",
    [str "forklift", str "forklift driver", str "forklift operator",
     str "lift driver", str "Level 1 Forklift Driver",
     str "Level 2 Forklift Driver", str "Level 3 Forklift Driver"]),
   (str "picker/packers",
    [str "picker", str "packer", str "picker/packer", str "order picker",
     str "warehouse picker", str "General Labor", str "Quality Control"]),
   (str "bendi_driver",
    [str "bendi", str "bendi driver", str "bendi operator", str "reach truck"]),
   (str "consolidation",
    [str "consolidation", str "consolidator", str "inventory",
     str "inventory control"]),
   (str "lumper", [str "lumper", str "Lumper"]),
   (str "receiver",
    [str "receiver", str "receiving", str "inbound worker", str "dock worker"]),
   (str "general labor",
    [str "general labor", str "general worker", str "warehouse worker",
     str "laborer", str "picker", str "packer"])]

/-- Python `role.split('_', 1)[-1]`: everything after the first underscore
(callers guard with `'_' in role`). -/
def afterFirstUS : List Char → List Char
  | [] => []
  | c :: cs => if c = '_' then cs else afterFirstUS cs

/-- Python `role.replace('_', ' ')`. -/
def replUnderscoreSpace (l : List Char) : List Char :=
  l.map fun c => if c = '_' then ' ' else c

/-- Python `role.replace(' ', '_')`. -/
def replSpaceUnderscore (l : List Char) : List Char :=
  l.map fun c => if c = ' ' then '_' else c

/-- database.py lines 67-78: the search-term list for one role — synonyms of
the suffix after the first underscore (for composite keys), synonyms of the
full key, then the lowercased key itself. -/
def roleSearchTerms (role : List Char) : List (List Char) :=
  (if role.contains '_' then (dlookup ROLE_MAPPINGS (afterFirstUS role)).getD []
   else []) ++
  (dlookup ROLE_MAPPINGS role).getD [] ++ [lowerL role]

/-- database.py lines 88-101: case-insensitive substring containment in
either direction between any search term and the raw or normalized job
title. -/
def employeeMatches (terms : List (List Char)) (e : Employee) : Bool :=
  terms.any fun t =>
    let tl := lowerL t
    let jt := lowerL e.original_job_title
    let njt := lowerL e.normalized_job_title
    containsL tl jt || containsL tl njt || containsL jt tl || containsL njt tl

/-- database.py `retrieve_employees` (lines 31-110) on an already-flat role
map (the shape `assign_employees_to_roles` passes; the nested-dict branch of
lines 52-59 is the identity for it).  Each role key is mapped to the
available employees whose titles match one of its search terms, in directory
order.  The values of the role map are not read. -/
def retrieve_employees (required : List (List Char × Option ℤ))
    (dir : List Employee) : List (List Char × List Employee) :=
  required.foldl
    (fun acc rc =>
      dset acc rc.1
        (dir.filter fun e =>
          is_employee_available e && employeeMatches (roleSearchTerms rc.1) e))
    []

/-! ## schedule_service.py assign_employees_to_roles -/

/-- Python `available_employees[:assigned_count]` (a negative count slices
from the end, as in Python). -/
def pytake {α : Type} (n : ℤ) (l : List α) : List α :=
  if 0 ≤ n then l.take n.toNat else l.take (l.length - n.natAbs)

/-- Python `available_employees[assigned_count:]`. -/
def pydrop {α : Type} (n : ℤ) (l : List α) : List α :=
  if 0 ≤ n then l.drop n.toNat else l.drop (l.length - n.natAbs)

/-- Lines 88-91 and 109-111: base role of a flattened key — the part after
the first underscore, with underscores turned back into spaces. -/
def baseOf (rk : List Char) : List Char :=
  replUnderscoreSpace (if rk.contains '_' then afterFirstUS rk else rk)

/-- Lines 81-85: flatten the nested requirement into
`{operation}_{role.replace(' ', '_')} -> count`.  A count is `some` int or
`none` for an ill-typed Python value (such as `None`) whose comparison or
addition raises. -/
def flattenAssign (required : List (List Char × List (List Char × Option ℤ))) :
    List (List Char × Option ℤ) :=
  required.foldl
    (fun acc oproles =>
      oproles.2.foldl
        (fun acc2 rc => dset acc2 (oproles.1 ++ '_' :: replSpaceUnderscore rc.1) rc.2)
        acc)
    []

/-- Lines 86-97: aggregate flattened counts per base role.  The result is
`none` when the Python `+=` raises (either operand ill-typed), which happens
before any employee is assigned. -/
def buildLookup : List (List Char × Option ℤ) → List (List Char × Option ℤ) →
    Option (List (List Char × Option ℤ))
  | [], acc => some acc
  | (rk, cnt) :: rest, acc =>
    match dlookup acc (baseOf rk) with
    | none => buildLookup rest (dset acc (baseOf rk) cnt)
    | some old =>
      match old, cnt with
      | some a, some b => buildLookup rest (dset acc (baseOf rk) (some (a + b)))
      | _, _ => none

/-- Lines 108-127: walk the flattened roles, take up to `count` employees
from the base-role pool, append them to the assignment map, and shrink the
pool.  The Bool records whether a Python exception was raised (an ill-typed
count at line 115/119 aborts the loop); the returned map is whatever has
been accumulated up to that point. -/
def assignLoop : List (List Char × Option ℤ) → List (List Char × List Employee) →
    List (List Char × List Employee) → List (List Char × List Employee) × Bool
  | [], _, acc => (acc, false)
  | (rk, cnt) :: rest, pools, acc =>
    match cnt with
    | none => (acc, true)
    | some c =>
      let base := baseOf rk
      let avail := (dlookup pools base).getD []
      let n : ℤ := min c (avail.length : ℤ)
      assignLoop rest (dset pools base (pydrop n avail))
        (dset acc base ((dlookup acc base).getD [] ++ pytake n avail))

/-- schedule_service.py `assign_employees_to_roles` (lines 67-132), with the
flag recording whether the except handler at line 129 fired.  The handler
returns the `assigned_employees` accumulated so far. -/
def assignRun (required : List (List Char × List (List Char × Option ℤ)))
    (dir : List Employee) : List (List Char × List Employee) × Bool :=
  match buildLookup (flattenAssign required) [] with
  | none => ([], true)
  | some lookup => assignLoop (flattenAssign required) (retrieve_employees lookup dir) []

/-- The assignment map `assign_employees_to_roles` returns. -/
def assign_employees_to_roles (required : List (List Char × List (List Char × Option ℤ)))
    (dir : List Employee) : List (List Char × List Employee) :=
  (assignRun required dir).1

/-! ### Claims C1 and C9 -/

theorem mem_pytake {α : Type} {n : ℤ} {l : List α} {x : α}
    (h : x ∈ pytake n l) : x ∈ l := by
  unfold pytake at h
  split at h
  · exact List.take_subset _ _ h
  · exact List.take_subset _ _ h

theorem mem_pydrop {α : Type} {n : ℤ} {l : List α} {x : α}
    (h : x ∈ pydrop n l) : x ∈ l := by
  unfold pydrop at h
  split at h
  · exact List.drop_subset _ _ h
  · exact List.drop_subset _ _ h

theorem assignLoop_subset (pool0 : List Char → List Employee) :
    ∀ (flat : List (List Char × Option ℤ))
      (pools acc : List (List Char × List Employee)),
      (∀ b e, e ∈ (dlookup pools b).getD [] → e ∈ pool0 b) →
      (∀ b e, e ∈ (dlookup acc b).getD [] → e ∈ pool0 b) →
      ∀ b e, e ∈ (dlookup (assignLoop flat pools acc).1 b).getD [] → e ∈ pool0 b := by
  intro flat
  induction flat with
  | nil => intro pools acc _ ha b e he; exact ha b e he
  | cons rc rest ih =>
    intro pools acc hp ha b e he
    obtain ⟨rk, cnt⟩ := rc
    cases cnt with
    | none =>
      simp only [assignLoop] at he
      exact ha b e he
    | some c =>
      simp only [assignLoop] at he
      refine ih _ _ ?_ ?_ b e he
      · intro b' e' he'
        rw [dlookup_dset] at he'
        by_cases hb : b' = baseOf rk
        · subst hb
          rw [if_pos rfl] at he'
          simp only [Option.getD_some] at he'
          exact hp _ e' (mem_pydrop he')
        · rw [if_neg hb] at he'
          exact hp b' e' he'
      · intro b' e' he'
        rw [dlookup_dset] at he'
        by_cases hb : b' = baseOf rk
        · subst hb
          rw [if_pos rfl] at he'
          simp only [Option.getD_some] at he'
          rcases List.mem_append.mp he' with h1 | h1
          · exact ha _ e' h1
          · exact hp _ e' (mem_pytake h1)
        · rw [if_neg hb] at he'
          exact ha b' e' he'

/-- Ids of an employee list. -/
def idsOf (l : List Employee) : List (List Char) := l.map fun e => e.id

/-- The candidate pools of distinct roles share no employee id. -/
def pairwiseDisjointIds (M : List (List Char × List Employee)) : Prop :=
  ∀ p ∈ M, ∀ q ∈ M, p.1 ≠ q.1 → ∀ x ∈ p.2, ∀ y ∈ q.2, x.id ≠ y.id

instance (M : List (List Char × List Employee)) :
    Decidable (pairwiseDisjointIds M) := by
  unfold pairwiseDisjointIds; infer_instance

/-- An employee whose job title "driver" substring-matches both the
"forklift driver" and the "bendi driver" search terms. -/
def empDriver : Employee :=
  ⟨str "E1", str "driver", str "driver", true, false, []⟩

/-- Requirement asking for one inbound forklift driver and one picking bendi
driver. -/
def requiredTwoRoles : List (List Char × List (List Char × Option ℤ)) :=
  [(str "inbound", [(str "forklift_driver", some 1)]),
   (str "picking", [(str "bendi_driver", some 1)])]

/-- C1 counterexample: the same employee id is assigned to two different
roles in one planning run.  An employee titled "driver" lands in both the
"forklift driver" and the "bendi driver" candidate pools (substring matching
in either direction), and the allocator removes assigned employees only from
the pool it drew from, so the id E1 appears in both roles' assigned lists. -/
theorem assign_double_booking_counterexample :
    (str "forklift driver") ≠ (str "bendi driver") ∧
    empDriver.id ∈ idsOf ((dlookup
      (assign_employees_to_roles requiredTwoRoles [empDriver])
      (str "forklift driver")).getD []) ∧
    empDriver.id ∈ idsOf ((dlookup
      (assign_employees_to_roles requiredTwoRoles [empDriver])
      (str "bendi driver")).getD []) := by
  decide

/-- C1 (amended): whenever the candidate pools returned by
`retrieve_employees` for the run's base-role map are pairwise id-disjoint,
the assignment map contains no employee id in the lists of two different
roles.  (Each assigned list draws only from its own role's pool; the
original claim fails only when one employee is matched into several
pools.) -/
theorem assign_no_double_booking
    (required : List (List Char × List (List Char × Option ℤ)))
    (dir : List Employee)
    (hdisj : pairwiseDisjointIds (retrieve_employees
      ((buildLookup (flattenAssign required) []).getD []) dir)) :
    ∀ b1 b2, b1 ≠ b2 →
      ∀ x, x ∈ (dlookup (assign_employees_to_roles required dir) b1).getD [] →
      ∀ y, y ∈ (dlookup (assign_employees_to_roles required dir) b2).getD [] →
        x.id ≠ y.id := by
  intro b1 b2 hne x hx y hy
  unfold assign_employees_to_roles assignRun at hx hy
  cases hbl : buildLookup (flattenAssign required) [] with
  | none =>
    simp only [hbl] at hx
    simp [dlookup] at hx
  | some lookup =>
    simp only [hbl] at hx hy
    simp only [hbl, Option.getD_some] at hdisj
    have hx' : x ∈ (dlookup (retrieve_employees lookup dir) b1).getD [] :=
      assignLoop_subset (fun b => (dlookup (retrieve_employees lookup dir) b).getD [])
        (flattenAssign required) (retrieve_employees lookup dir) []
        (fun b e he => he) (fun b e he => by simp [dlookup] at he) b1 x hx
    have hy' : y ∈ (dlookup (retrieve_employees lookup dir) b2).getD [] :=
      assignLoop_subset (fun b => (dlookup (retrieve_employees lookup dir) b).getD [])
        (flattenAssign required) (retrieve_employees lookup dir) []
        (fun b e he => he) (fun b e he => by simp [dlookup] at he) b2 y hy
    cases h1 : dlookup (retrieve_employees lookup dir) b1 with
    | none => rw [h1] at hx'; simp at hx'
    | some l1 =>
      cases h2 : dlookup (retrieve_employees lookup dir) b2 with
      | none => rw [h2] at hy'; simp at hy'
      | some l2 =>
        rw [h1] at hx'
        rw [h2] at hy'
        simp only [Option.getD_some] at hx' hy'
        exact hdisj (b1, l1) (dlookup_mem h1) (b2, l2) (dlookup_mem h2) hne x hx' y hy'

/-- An employee whose job title exactly matches the base role "forklift
driver" and nothing else. -/
def empForklift : Employee :=
  ⟨str "E1", str "forklift driver", str "forklift driver", true, false, []⟩

/-- An employee whose job title exactly matches the base role "bendi driver"
and nothing else. -/
def empBendi : Employee :=
  ⟨str "E2", str "bendi driver", str "bendi driver", true, false, []⟩

/-- C1 witness: the no-double-booking theorem applied to a run whose two
candidate pools are disjoint (one forklift driver, one bendi driver), at the
two assigned employees of the two roles. -/
theorem assign_no_double_booking_witness : empForklift.id ≠ empBendi.id :=
  assign_no_double_booking requiredTwoRoles [empForklift, empBendi] (by decide)
    (str "forklift driver") (str "bendi driver") (by decide)
    empForklift (by decide) empBendi (by decide)

/-- Requirement in which a well-typed count precedes an ill-typed one, so the
allocator assigns an employee before the exception hits. -/
def requiredBadCount : List (List Char × List (List Char × Option ℤ)) :=
  [(str "inbound", [(str "x", some 1), (str "y", none)])]

/-- An available employee titled "x". -/
def empX : Employee := ⟨str "E1", str "x", str "x", true, false, []⟩

/-- C9 counterexample: an exception raised during allocation (ill-typed
count for the second role, the line-115 comparison) does NOT yield an empty
assignment map — the handler returns the map accumulated so far, which
already assigns employee E1 to role "x". -/
theorem assign_exception_partial_map_counterexample :
    (assignRun requiredBadCount [empX]).2 = true ∧
    assign_employees_to_roles requiredBadCount [empX] ≠ [] := by
  decide

/-- C9 (amended): when the exception occurs before any employee is assigned
— in particular while aggregating the base-role counts (the line-95 `+=` on
an ill-typed value) — the function returns an empty assignment map without
propagating; in general the except handler returns exactly the assignments
accumulated up to the raising point. -/
theorem assign_empty_on_aggregation_exception
    (required : List (List Char × List (List Char × Option ℤ)))
    (dir : List Employee)
    (h : buildLookup (flattenAssign required) [] = none) :
    assign_employees_to_roles required dir = [] ∧
    (assignRun required dir).2 = true := by
  unfold assign_employees_to_roles assignRun
  rw [h]
  exact ⟨rfl, rfl⟩

/-- Requirement whose two flattened entries share the base role "x", the
first with an ill-typed count, so the aggregation `+=` raises before any
assignment. -/
def requiredDupBase : List (List Char × List (List Char × Option ℤ)) :=
  [(str "inbound", [(str "x", none)]), (str "picking", [(str "x", some 1)])]

/-- C9 witness: the aggregation-exception theorem applied at a requirement
whose base-role aggregation raises, yielding the empty map. -/
theorem assign_empty_on_aggregation_exception_witness :
    assign_employees_to_roles requiredDupBase [empX] = [] ∧
    (assignRun requiredDupBase [empX]).2 = true :=
  assign_empty_on_aggregation_exception requiredDupBase [empX] (by decide)

/-! ## database.py find_best_match -/

/-- Levenshtein distance with explicit fuel so that the textbook recurrence
is structurally recursive (each recursive call shortens the combined length
by at least one, so the fuel `lev` supplies never runs out). -/
def levF : ℕ → List Char → List Char → ℕ
  | 0, _, _ => 0
  | _ + 1, [], ys => ys.length
  | _ + 1, x :: xs, [] => (x :: xs).length
  | fuel + 1, x :: xs, y :: ys =>
    if x = y then levF fuel xs ys
    else 1 + min (levF fuel xs (y :: ys)) (min (levF fuel (x :: xs) ys) (levF fuel xs ys))

/-- The Levenshtein edit distance (`Levenshtein.distance` in the Python
code): unit-cost insertions, deletions and substitutions. -/
def lev (xs ys : List Char) : ℕ := levF (xs.length + ys.length + 1) xs ys

theorem levF_self : ∀ (fuel : ℕ) (l : List Char), l.length < fuel →
    levF fuel l l = 0 := by
  intro fuel
  induction fuel with
  | zero => intro l h; omega
  | succ f ih =>
    intro l h
    cases l with
    | nil => rfl
    | cons c cs =>
      simp only [levF, if_pos rfl]
      exact ih cs (by simp at h; omega)

theorem lev_self (l : List Char) : lev l l = 0 :=
  levF_self _ l (by omega)

/-- Line 189's acceptance test `best_score <= len(name) * 0.3`. -/
def fbmThreshold (name : List Char) (b : ℕ) : Prop :=
  PyQ.le (PyQ.ofInt b) ((PyQ.ofInt name.length).mul (pq 3 10 (by omega)))

instance (name : List Char) (b : ℕ) : Decidable (fbmThreshold name b) := by
  unfold fbmThreshold; infer_instance

theorem fbmThreshold_zero (name : List Char) : fbmThreshold name 0 := by
  unfold fbmThreshold PyQ.le PyQ.ofInt PyQ.mul pq
  simp

/-- The name variants actually scanned for a candidate: none when the store
fetch fails (missing record, empty metadata or malformed variant JSON, all
skipped by the per-candidate try/except), otherwise the stored list with the
id itself as default when no variations are stored (lines 158-170). -/
def effVars (store : List Char → Option (List (List Char)))
    (e : List Char) : List (List Char) :=
  match store e with
  | none => []
  | some vs => if vs.isEmpty then [e] else vs

/-- Lines 172-184, the inner loop over one candidate's variations: `true`
means an exact lowercase match returned immediately; otherwise the running
(best score, best match) pair is updated by strict improvement. -/
def fbmVar (nameL empId : List Char) :
    List (List Char) → Option (ℕ × List Char) → Bool × Option (ℕ × List Char)
  | [], best => (false, best)
  | v :: vs, best =>
    if nameL = lowerL v then (true, best)
    else
      fbmVar nameL empId vs
        (match best with
         | none => some (lev nameL (lowerL v), empId)
         | some (b, bm) =>
           if lev nameL (lowerL v) < b then some (lev nameL (lowerL v), empId)
           else some (b, bm))

/-- Lines 157-191, the outer loop over candidates followed by the threshold
check; `best = none` models `best_score = inf, best_match = None`. -/
def fbmGo (name nameL : List Char)
    (store : List Char → Option (List (List Char))) :
    List (List Char) → Option (ℕ × List Char) → Option (List Char)
  | [], best =>
    match best with
    | some (b, bm) => if fbmThreshold name b then some bm else none
    | none => none
  | e :: es, best =>
    match store e with
    | none => fbmGo name nameL store es best
    | some vs =>
      match fbmVar nameL e (if vs.isEmpty then [e] else vs) best with
      | (true, _) => some e
      | (false, best2) => fbmGo name nameL store es best2

/-- database.py `find_best_match` (lines 141-191). -/
def find_best_match (name : List Char) (employee_list : List (List Char))
    (store : List Char → Option (List (List Char))) : Option (List Char) :=
  fbmGo name (lowerL name) store employee_list none

/-! ### Lemmas about the resolver loops -/

theorem fbmVar_exact_true (nameL empId : List Char) :
    ∀ (vs : List (List Char)) (best : Option (ℕ × List Char)),
      (∃ v ∈ vs, lowerL v = nameL) → (fbmVar nameL empId vs best).1 = true := by
  intro vs
  induction vs with
  | nil => rintro best ⟨v, hv, _⟩; simp at hv
  | cons v vs ih =>
    rintro best ⟨w, hw, hwl⟩
    by_cases hv : nameL = lowerL v
    · simp only [fbmVar, if_pos hv]
    · rcases List.mem_cons.mp hw with rfl | hw'
      · exact absurd hwl.symm hv
      · simp only [fbmVar, if_neg hv]
        exact ih _ ⟨w, hw', hwl⟩

theorem fbmVar_true_exact (nameL empId : List Char) :
    ∀ (vs : List (List Char)) (best : Option (ℕ × List Char)),
      (fbmVar nameL empId vs best).1 = true → ∃ v ∈ vs, lowerL v = nameL := by
  intro vs
  induction vs with
  | nil => intro best h; simp [fbmVar] at h
  | cons v vs ih =>
    intro best h
    by_cases hv : nameL = lowerL v
    · exact ⟨v, List.mem_cons_self _ _, hv.symm⟩
    · simp only [fbmVar, if_neg hv] at h
      rcases ih _ h with ⟨w, hw, hwl⟩
      exact ⟨w, List.mem_cons_of_mem _ hw, hwl⟩

theorem fbmVar_best_spec (nameL empId : List Char) :
    ∀ (vs : List (List Char)) (best : Option (ℕ × List Char)) (b : ℕ)
      (bm : List Char),
      (fbmVar nameL empId vs best).2 = some (b, bm) →
      best = some (b, bm) ∨ (bm = empId ∧ ∃ v ∈ vs, lev nameL (lowerL v) = b) := by
  intro vs
  induction vs with
  | nil => intro best b bm h; simp [fbmVar] at h; exact Or.inl (by rw [h])
  | cons v vs ih =>
    intro best b bm h
    by_cases hv : nameL = lowerL v
    · simp only [fbmVar, if_pos hv] at h
      exact Or.inl h
    · simp only [fbmVar, if_neg hv] at h
      rcases ih _ b bm h with h1 | h1
      · cases best with
        | none =>
          have h2 : some (lev nameL (lowerL v), empId) = some (b, bm) := h1
          simp only [Option.some.injEq, Prod.mk.injEq] at h2
          exact Or.inr ⟨h2.2.symm, v, List.mem_cons_self _ _, h2.1⟩
        | some p =>
          obtain ⟨pb, pbm⟩ := p
          have h2 : (if lev nameL (lowerL v) < pb
              then some (lev nameL (lowerL v), empId)
              else some (pb, pbm)) = some (b, bm) := h1
          by_cases hd : lev nameL (lowerL v) < pb
          · rw [if_pos hd] at h2
            simp only [Option.some.injEq, Prod.mk.injEq] at h2
            exact Or.inr ⟨h2.2.symm, v, List.mem_cons_self _ _, h2.1⟩
          · rw [if_neg hd] at h2
            exact Or.inl h2
      · exact Or.inr ⟨h1.1, by
          rcases h1.2 with ⟨w, hw, hwl⟩
          exact ⟨w, List.mem_cons_of_mem _ hw, hwl⟩⟩

theorem fbmGo_sound (name nameL : List Char)
    (store : List Char → Option (List (List Char))) :
    ∀ (es : List (List Char)) (best : Option (ℕ × List Char)) (r : List Char),
      (∀ b bm, best = some (b, bm) →
        ∃ v ∈ effVars store bm, lev nameL (lowerL v) ≤ b) →
      fbmGo name nameL store es best = some r →
      ∃ v ∈ effVars store r, fbmThreshold name (lev nameL (lowerL v)) := by
  intro es
  induction es with
  | nil =>
    intro best r hinv h
    cases best with
    | none => simp [fbmGo] at h
    | some p =>
      obtain ⟨b, bm⟩ := p
      simp only [fbmGo] at h
      by_cases ht : fbmThreshold name b
      · rw [if_pos ht] at h
        injection h with hbm
        subst hbm
        rcases hinv b bm rfl with ⟨v, hv, hle⟩
        refine ⟨v, hv, ?_⟩
        unfold fbmThreshold PyQ.le PyQ.ofInt PyQ.mul pq at ht ⊢
        simp only at ht ⊢
        omega
      · rw [if_neg ht] at h
        exact absurd h (by simp)
  | cons e es ih =>
    intro best r hinv h
    cases hse : store e with
    | none =>
      simp only [fbmGo, hse] at h
      exact ih best r hinv h
    | some vs =>
      simp only [fbmGo, hse] at h
      rcases hfb : fbmVar nameL e (if vs.isEmpty then [e] else vs) best with ⟨fl, b2⟩
      rw [hfb] at h
      cases fl with
      | true =>
        injection h with hr
        subst hr
        have hex : ∃ v ∈ (if vs.isEmpty then [e] else vs), lowerL v = nameL :=
          fbmVar_true_exact nameL e _ best (by rw [hfb])
        rcases hex with ⟨v, hv, hvl⟩
        refine ⟨v, ?_, ?_⟩
        · unfold effVars
          rw [hse]
          exact hv
        · rw [hvl, lev_self]
          exact fbmThreshold_zero name
      | false =>
        refine ih b2 r ?_ h
        intro b bm hb2
        subst hb2
        rcases fbmVar_best_spec nameL e _ best b bm (by rw [hfb]) with h1 | h1
        · exact hinv b bm h1
        · rcases h1.2 with ⟨v, hv, hvl⟩
          refine ⟨v, ?_, le_of_eq hvl⟩
          unfold effVars
          rw [h1.1, hse]
          exact hv

theorem fbmGo_exact (name nameL : List Char)
    (store : List Char → Option (List (List Char))) :
    ∀ (es : List (List Char)) (best : Option (ℕ × List Char)),
      (∃ e ∈ es, ∃ v ∈ effVars store e, lowerL v = nameL) →
      ∃ r, (r ∈ es ∧ ∃ v ∈ effVars store r, lowerL v = nameL) ∧
        fbmGo name nameL store es best = some r := by
  intro es
  induction es with
  | nil => rintro best ⟨e, he, _⟩; simp at he
  | cons e es ih =>
    rintro best ⟨e', he', hv'⟩
    cases hse : store e with
    | none =>
      have hes : ∃ x ∈ es, ∃ v ∈ effVars store x, lowerL v = nameL := by
        rcases List.mem_cons.mp he' with rfl | hmem
        · rcases hv' with ⟨v, hv, _⟩
          unfold effVars at hv
          rw [hse] at hv
          simp at hv
        · exact ⟨e', hmem, hv'⟩
      rcases ih best hes with ⟨r, hr, hres⟩
      refine ⟨r, ⟨List.mem_cons_of_mem _ hr.1, hr.2⟩, ?_⟩
      simp only [fbmGo, hse]
      exact hres
    | some vs =>
      by_cases hex : ∃ v ∈ (if vs.isEmpty then [e] else vs), lowerL v = nameL
      · have ht : (fbmVar nameL e (if vs.isEmpty then [e] else vs) best).1 = true :=
          fbmVar_exact_true nameL e _ best hex
        refine ⟨e, ⟨List.mem_cons_self _ _, ?_⟩, ?_⟩
        · unfold effVars
          rw [hse]
          exact hex
        · simp only [fbmGo, hse]
          rcases hfb : fbmVar nameL e (if vs.isEmpty then [e] else vs) best with ⟨fl, b2⟩
          rw [hfb] at ht
          cases fl with
          | true => rfl
          | false => simp at ht
      · have hes : ∃ x ∈ es, ∃ v ∈ effVars store x, lowerL v = nameL := by
          rcases List.mem_cons.mp he' with rfl | hmem
          · exfalso
            apply hex
            rcases hv' with ⟨v, hv, hvl⟩
            unfold effVars at hv
            rw [hse] at hv
            exact ⟨v, hv, hvl⟩
          · exact ⟨e', hmem, hv'⟩
        rcases hfb : fbmVar nameL e (if vs.isEmpty then [e] else vs) best with ⟨fl, b2⟩
        have hfl : fl = false := by
          cases fl with
          | false => rfl
          | true =>
            exfalso
            exact hex (fbmVar_true_exact nameL e _ best (by rw [hfb]))
        subst hfl
        rcases ih b2 hes with ⟨r, hr, hres⟩
        refine ⟨r, ⟨List.mem_cons_of_mem _ hr.1, hr.2⟩, ?_⟩
        simp only [fbmGo, hse]
        rw [hfb]
        exact hres

theorem fbmGo_far_none (name nameL : List Char)
    (store : List Char → Option (List (List Char))) :
    ∀ (es : List (List Char)) (best : Option (ℕ × List Char)),
      (∀ e ∈ es, ∀ v ∈ effVars store e,
        ¬ fbmThreshold name (lev nameL (lowerL v))) →
      (∀ b bm, best = some (b, bm) → ¬ fbmThreshold name b) →
      fbmGo name nameL store es best = none := by
  intro es
  induction es with
  | nil =>
    intro best h hb
    cases best with
    | none => rfl
    | some p =>
      obtain ⟨b, bm⟩ := p
      simp only [fbmGo]
      rw [if_neg (hb b bm rfl)]
  | cons e es ih =>
    intro best h hb
    cases hse : store e with
    | none =>
      simp only [fbmGo, hse]
      exact ih best (fun x hx => h x (List.mem_cons_of_mem _ hx)) hb
    | some vs =>
      have hex : ¬ ∃ v ∈ (if vs.isEmpty then [e] else vs), lowerL v = nameL := by
        rintro ⟨v, hv, hvl⟩
        have hvm : v ∈ effVars store e := by
          unfold effVars
          rw [hse]
          exact hv
        apply h e (List.mem_cons_self _ _) v hvm
        rw [hvl, lev_self]
        exact fbmThreshold_zero name
      rcases hfb : fbmVar nameL e (if vs.isEmpty then [e] else vs) best with ⟨fl, b2⟩
      have hfl : fl = false := by
        cases fl with
        | false => rfl
        | true => exact absurd (fbmVar_true_exact nameL e _ best (by rw [hfb])) hex
      subst hfl
      simp only [fbmGo, hse]
      rw [hfb]
      refine ih b2 (fun x hx => h x (List.mem_cons_of_mem _ hx)) ?_
      intro b bm hb2
      subst hb2
      rcases fbmVar_best_spec nameL e _ best b bm (by rw [hfb]) with h1 | h1
      · exact hb b bm h1
      · rcases h1.2 with ⟨v, hv, hvl⟩
        have hvm : v ∈ effVars store e := by
          unfold effVars
          rw [hse]
          exact hv
        rw [← hvl]
        exact h e (List.mem_cons_self _ _) v hvm

theorem fbmGo_all_skipped (name nameL : List Char)
    (store : List Char → Option (List (List Char))) :
    ∀ es : List (List Char), (∀ e ∈ es, store e = none) →
      fbmGo name nameL store es none = none := by
  intro es
  induction es with
  | nil => intro _; rfl
  | cons e es ih =>
    intro h
    simp only [fbmGo, h e (List.mem_cons_self _ _)]
    exact ih fun x hx => h x (List.mem_cons_of_mem _ hx)

/-! ### Claims C8 and C10 -/

/-- C8: the fuzzy resolver (i) returns a candidate id only when some of that
candidate's scanned name variants is within the `0.3 * len(query)`
Levenshtein threshold of the query (case-insensitively), (ii) returns (the
first) candidate having an exact case-insensitive variant match whenever one
exists, regardless of the threshold, and (iii) returns no match — rather
than raising — when every scanned variant of every candidate is strictly
beyond the threshold. -/
theorem find_best_match_spec (name : List Char)
    (employee_list : List (List Char))
    (store : List Char → Option (List (List Char))) :
    (∀ r, find_best_match name employee_list store = some r →
      ∃ v ∈ effVars store r, fbmThreshold name (lev (lowerL name) (lowerL v))) ∧
    ((∃ e ∈ employee_list, ∃ v ∈ effVars store e, lowerL v = lowerL name) →
      ∃ r, (r ∈ employee_list ∧ ∃ v ∈ effVars store r, lowerL v = lowerL name) ∧
        find_best_match name employee_list store = some r) ∧
    ((∀ e ∈ employee_list, ∀ v ∈ effVars store e,
        ¬ fbmThreshold name (lev (lowerL name) (lowerL v))) →
      find_best_match name employee_list store = none) := by
  refine ⟨?_, ?_, ?_⟩
  · intro r h
    exact fbmGo_sound name (lowerL name) store employee_list none r
      (by intro b bm hb; simp at hb) h
  · intro h
    exact fbmGo_exact name (lowerL name) store employee_list none h
  · intro h
    exact fbmGo_far_none name (lowerL name) store employee_list none h
      (by intro b bm hb; simp at hb)

/-- Store for the resolver witnesses: candidate E1 has the single stored
variant "xyz", everything else fails to fetch. -/
def storeXyz : List Char → Option (List (List Char)) :=
  fun e => if e = str "E1" then some [str "xyz"] else none

/-- C8 witness: the resolver specification applied to the query "ab" against
the single candidate E1 with variant "xyz", whose distance 3 exceeds
`0.3 * 2`, so no match is returned. -/
theorem find_best_match_spec_witness :
    find_best_match (str "ab") [str "E1"] storeXyz = none :=
  (find_best_match_spec (str "ab") [str "E1"] storeXyz).2.2 (by decide)

/-- C10: on an empty candidate list — and more generally when no candidate
yields any usable name variants (every fetch is skipped) — the resolver
returns no match without raising: the best-score accumulator is never set,
the threshold comparison against infinity fails, and `None` is returned. -/
theorem find_best_match_no_usable_candidates (name : List Char)
    (employee_list : List (List Char))
    (store : List Char → Option (List (List Char)))
    (h : ∀ e ∈ employee_list, store e = none) :
    find_best_match name [] store = none ∧
    find_best_match name employee_list store = none :=
  ⟨rfl, fbmGo_all_skipped name (lowerL name) store employee_list h⟩

/-- C10 witness: the no-usable-candidates theorem applied to the query
"John" with candidate list [E9] whose fetch fails. -/
theorem find_best_match_no_usable_candidates_witness :
    find_best_match (str "John") [] (fun _ => none) = none ∧
    find_best_match (str "John") [str "E9"] (fun _ => none) = none :=
  find_best_match_no_usable_candidates (str "John") [str "E9"] (fun _ => none)
    (by decide)

/-! ## schedule_service.py run_scheduler: flattening and shortages -/

/-- Python `flattened[base_role] += count` with dict-style insertion:
aggregate when the key exists, append otherwise. -/
def daddInt (m : List (List Char × ℤ)) (k : List Char) (v : ℤ) :
    List (List Char × ℤ) :=
  match dlookup m k with
  | some old => dset m k (old + v)
  | none => dset m k v

/-- The nested `required_roles` dict as handed to
`assign_employees_to_roles` (iteration order inbound, picking, loading,
replenishment; the fallback value has only replenishment). -/
def toAssoc (fr : FinalRoles) : List (List Char × List (List Char × Option ℤ)) :=
  (match fr.inbound with
   | some i =>
     [(str "inbound",
       [(str "forklift_driver", some i.forklift_driver),
        (str "receiver", some i.receiver),
        (str "bendi_driver", some i.bendi_driver)])]
   | none => []) ++
  (match fr.picking with
   | some p =>
     [(str "picking",
       [(str "bendi_driver", some p.bendi_driver),
        (str "general_labor", some p.general_labor)])]
   | none => []) ++
  (match fr.loading with
   | some l => [(str "loading", [(str "forklift_driver", some l.forklift_driver)])]
   | none => []) ++
  [(str "replenishment", [(str "staff", some fr.replenishment_staff)])]

/-- The inbound step of `flatten_roles` (lines 181-197). -/
def flattenInbound (fr : FinalRoles) : List (List Char × ℤ) :=
  match fr.inbound with
  | some i =>
    daddInt (daddInt (daddInt [] (str "forklift_driver") i.forklift_driver)
      (str "receiver") i.receiver) (str "bendi_driver") i.bendi_driver
  | none => []

/-- The picking step of `flatten_roles`. -/
def flattenPicking (fr : FinalRoles) (acc : List (List Char × ℤ)) :
    List (List Char × ℤ) :=
  match fr.picking with
  | some p =>
    daddInt (daddInt acc (str "bendi_driver") p.bendi_driver)
      (str "general_labor") p.general_labor
  | none => acc

/-- The loading step of `flatten_roles`. -/
def flattenLoading (fr : FinalRoles) (acc : List (List Char × ℤ)) :
    List (List Char × ℤ) :=
  match fr.loading with
  | some l => daddInt acc (str "forklift_driver") l.forklift_driver
  | none => acc

/-- schedule_service.py `flatten_roles` (lines 181-197): per-operation role
counts merged per base role, with `replenishment.staff` renamed to
`consolidation`. -/
def flatten_roles (fr : FinalRoles) : List (List Char × ℤ) :=
  daddInt (flattenLoading fr (flattenPicking fr (flattenInbound fr)))
    (str "consolidation") fr.replenishment_staff

/-- Lines 205-209: the assigned-employee lookup key for a flattened role. -/
def shortLookupRole (rk : List Char) : List Char :=
  if rk = str "consolidation" then str "staff" else replUnderscoreSpace rk

/-- Line 211: `len(assigned_employees_tomorrow.get(lookup_role, []))`. -/
def assignedCount (assigned : List (List Char × List Employee))
    (rk : List Char) : ℕ :=
  ((dlookup assigned (shortLookupRole rk)).getD []).length

/-- Lines 203-213: walk the flattened roles and record `required - assigned`
when positive. -/
def shortLoop (assigned : List (List Char × List Employee)) :
    List (List Char × ℤ) → List (List Char × ℤ) → List (List Char × ℤ)
  | [], sh => sh
  | (rk, req) :: rest, sh =>
    if (assignedCount assigned rk : ℤ) < req then
      shortLoop assigned rest (dset sh rk (req - assignedCount assigned rk))
    else shortLoop assigned rest sh

/-- The shortage dict computed for the nearer day. -/
def computeShortages (assigned : List (List Char × List Employee))
    (flat : List (List Char × ℤ)) : List (List Char × ℤ) :=
  shortLoop assigned flat []

/-- The flattened requirement for tomorrow (line 199). -/
def tomorrow_flat (ft : ForecastData) : List (List Char × ℤ) :=
  flatten_roles (calculate_required_roles get_metrics_summary ft)

/-- Tomorrow's assignment map (line 177). -/
def tomorrow_assigned (ft : ForecastData) (dir : List Employee) :
    List (List Char × List Employee) :=
  assign_employees_to_roles
    (toAssoc (calculate_required_roles get_metrics_summary ft)) dir

/-- Tomorrow's shortage map (lines 203-213). -/
def tomorrow_shortages (ft : ForecastData) (dir : List Employee) :
    List (List Char × ℤ) :=
  computeShortages (tomorrow_assigned ft dir) (tomorrow_flat ft)

/-- One day's entry of the returned `schedule_data` (the date strings and
notification sends are external collaborators, out of the embedded core). -/
structure ScheduleDay where
  required_roles : FinalRoles
  assigned_employees : List (List Char × List Employee)
  forecast_data : ForecastData
deriving DecidableEq

/-- The `schedule_data` dict returned by `run_scheduler`. -/
structure ScheduleData where
  tomorrow : ScheduleDay
  day_after : ScheduleDay
deriving DecidableEq

/-- schedule_service.py `run_scheduler` (lines 135-273), parametric in the
two forecast-fetch results and the employee directory.
`get_orders_for_scheduling` returns the empty dict `{}` when any collaborator
call raises (lines 63-65), and a five-key (hence truthy) dict otherwise, so
its result is embedded as an `Option ForecastData` with `none` for the empty
falsy dict.  Line 157 aborts with `None` when either day's forecast is
empty. -/
def run_scheduler (forecast_tomorrow forecast_day_after : Option ForecastData)
    (dir : List Employee) : Option ScheduleData :=
  match forecast_tomorrow, forecast_day_after with
  | some ft, some fd =>
    some ⟨⟨calculate_required_roles get_metrics_summary ft,
           assign_employees_to_roles
             (toAssoc (calculate_required_roles get_metrics_summary ft)) dir, ft⟩,
          ⟨calculate_required_roles get_metrics_summary fd,
           assign_employees_to_roles
             (toAssoc (calculate_required_roles get_metrics_summary fd)) dir, fd⟩⟩
  | _, _ => none

/-! ### Claims C5 and C6 -/

theorem dlookup_eq_none {α : Type} :
    ∀ {m : List (List Char × α)} {k : List Char},
      k ∉ m.map Prod.fst → dlookup m k = none := by
  intro m
  induction m with
  | nil => intro k _; rfl
  | cons p rest ih =>
    intro k h
    obtain ⟨pk, pv⟩ := p
    simp only [List.map_cons, List.mem_cons] at h
    push_neg at h
    simp only [dlookup, if_neg (fun hh : pk = k => h.1 hh.symm)]
    exact ih h.2

theorem mem_keys_dset {α : Type} :
    ∀ (m : List (List Char × α)) (k k' : List Char) (v : α),
      k' ∈ (dset m k v).map Prod.fst → k' ∈ m.map Prod.fst ∨ k' = k := by
  intro m
  induction m with
  | nil =>
    intro k k' v h
    simp [dset] at h
    exact Or.inr h
  | cons p rest ih =>
    intro k k' v h
    obtain ⟨pk, pv⟩ := p
    by_cases hp : pk = k
    · rw [show dset ((pk, pv) :: rest) k v = (k, v) :: rest from by
        simp [dset, hp]] at h
      simp only [List.map_cons, List.mem_cons] at h ⊢
      rcases h with h | h
      · exact Or.inr h
      · exact Or.inl (Or.inr h)
    · rw [show dset ((pk, pv) :: rest) k v = (pk, pv) :: dset rest k v from by
        simp [dset, hp]] at h
      simp only [List.map_cons, List.mem_cons] at h ⊢
      rcases h with h | h
      · exact Or.inl (Or.inl h)
      · rcases ih k k' v h with h1 | h1
        · exact Or.inl (Or.inr h1)
        · exact Or.inr h1

theorem nodup_keys_dset {α : Type} :
    ∀ (m : List (List Char × α)) (k : List Char) (v : α),
      (m.map Prod.fst).Nodup → ((dset m k v).map Prod.fst).Nodup := by
  intro m
  induction m with
  | nil => intro k v _; simp [dset]
  | cons p rest ih =>
    intro k v h
    obtain ⟨pk, pv⟩ := p
    simp only [List.map_cons, List.nodup_cons] at h
    by_cases hp : pk = k
    · rw [show dset ((pk, pv) :: rest) k v = (k, v) :: rest from by
        simp [dset, hp]]
      simp only [List.map_cons, List.nodup_cons]
      exact ⟨hp ▸ h.1, h.2⟩
    · rw [show dset ((pk, pv) :: rest) k v = (pk, pv) :: dset rest k v from by
        simp [dset, hp]]
      simp only [List.map_cons, List.nodup_cons]
      refine ⟨fun hmem => ?_, ih k v h.2⟩
      rcases mem_keys_dset rest k pk v hmem with h1 | h1
      · exact h.1 h1
      · exact hp h1

theorem nodup_keys_daddInt (m : List (List Char × ℤ)) (k : List Char) (v : ℤ)
    (h : (m.map Prod.fst).Nodup) : ((daddInt m k v).map Prod.fst).Nodup := by
  unfold daddInt
  cases dlookup m k with
  | none => exact nodup_keys_dset m k v h
  | some old => exact nodup_keys_dset m k (old + v) h

theorem flatten_roles_nodup (fr : FinalRoles) :
    ((flatten_roles fr).map Prod.fst).Nodup := by
  apply nodup_keys_daddInt
  unfold flattenLoading
  have hpick : ((flattenPicking fr (flattenInbound fr)).map Prod.fst).Nodup := by
    unfold flattenPicking
    have hinb : ((flattenInbound fr).map Prod.fst).Nodup := by
      unfold flattenInbound
      cases fr.inbound with
      | none => simp
      | some i =>
        apply nodup_keys_daddInt
        apply nodup_keys_daddInt
        apply nodup_keys_daddInt
        simp
    cases fr.picking with
    | none => exact hinb
    | some p =>
      apply nodup_keys_daddInt
      apply nodup_keys_daddInt
      exact hinb
  cases fr.loading with
  | none => exact hpick
  | some l => exact nodup_keys_daddInt _ _ _ hpick

theorem shortLoop_lookup_none (assigned : List (List Char × List Employee)) :
    ∀ (flat sh : List (List Char × ℤ)) (k : List Char),
      dlookup flat k = none →
      dlookup (shortLoop assigned flat sh) k = dlookup sh k := by
  intro flat
  induction flat with
  | nil => intro sh k _; rfl
  | cons p rest ih =>
    intro sh k h
    obtain ⟨rk, req⟩ := p
    have hk : ¬ rk = k := by
      intro hk
      simp [dlookup, hk] at h
    simp only [dlookup, if_neg hk] at h
    simp only [shortLoop]
    by_cases hc : (assignedCount assigned rk : ℤ) < req
    · rw [if_pos hc, ih _ k h, dlookup_dset,
        if_neg (fun hkk : k = rk => hk hkk.symm)]
    · rw [if_neg hc, ih _ k h]

theorem shortLoop_lookup_some (assigned : List (List Char × List Employee)) :
    ∀ (flat sh : List (List Char × ℤ)) (k : List Char) (req : ℤ),
      (flat.map Prod.fst).Nodup →
      dlookup flat k = some req →
      dlookup (shortLoop assigned flat sh) k =
        if (assignedCount assigned k : ℤ) < req
        then some (req - assignedCount assigned k) else dlookup sh k := by
  intro flat
  induction flat with
  | nil => intro sh k req _ h; simp [dlookup] at h
  | cons p rest ih =>
    intro sh k req hnd h
    obtain ⟨rk, rreq⟩ := p
    simp only [List.map_cons, List.nodup_cons] at hnd
    by_cases hk : rk = k
    · subst hk
      have h2 : some rreq = some req := by simpa [dlookup] using h
      injection h2 with h2
      subst h2
      have hrest : dlookup rest rk = none := dlookup_eq_none hnd.1
      simp only [shortLoop]
      by_cases hc : (assignedCount assigned rk : ℤ) < rreq
      · rw [if_pos hc, shortLoop_lookup_none assigned rest _ rk hrest,
          dlookup_dset, if_pos rfl, if_pos hc]
      · rw [if_neg hc, shortLoop_lookup_none assigned rest _ rk hrest, if_neg hc]
    · simp only [dlookup, if_neg hk] at h
      simp only [shortLoop]
      by_cases hc : (assignedCount assigned rk : ℤ) < rreq
      · rw [if_pos hc, ih _ k req hnd.2 h, dlookup_dset,
          if_neg (fun hkk : k = rk => hk hkk.symm)]
      · rw [if_neg hc, ih _ k req hnd.2 h]

/-- C5: in every planning run, tomorrow's shortage map has an entry for a
role iff strictly fewer employees are assigned to it than its flattened
required count; the entry's value is `required - assigned`, a positive
integer, and `shortage + assigned = required`; roles absent from the
flattened requirement have no shortage entry. -/
theorem run_shortages_iff (ft : ForecastData) (dir : List Employee)
    (rk : List Char) :
    (∀ req : ℤ, dlookup (tomorrow_flat ft) rk = some req →
      ((dlookup (tomorrow_shortages ft dir) rk).isSome ↔
        (assignedCount (tomorrow_assigned ft dir) rk : ℤ) < req) ∧
      (∀ v, dlookup (tomorrow_shortages ft dir) rk = some v →
        v = req - assignedCount (tomorrow_assigned ft dir) rk ∧ 0 < v ∧
        v + assignedCount (tomorrow_assigned ft dir) rk = req)) ∧
    (dlookup (tomorrow_flat ft) rk = none →
      dlookup (tomorrow_shortages ft dir) rk = none) := by
  constructor
  · intro req hreq
    have hl := shortLoop_lookup_some (tomorrow_assigned ft dir) (tomorrow_flat ft)
      [] rk req (flatten_roles_nodup _) hreq
    rw [show tomorrow_shortages ft dir =
      shortLoop (tomorrow_assigned ft dir) (tomorrow_flat ft) [] from rfl, hl]
    constructor
    · by_cases hc : (assignedCount (tomorrow_assigned ft dir) rk : ℤ) < req
      · simp [if_pos hc, hc]
      · simp [if_neg hc, hc, dlookup]
    · intro v hv
      by_cases hc : (assignedCount (tomorrow_assigned ft dir) rk : ℤ) < req
      · rw [if_pos hc] at hv
        injection hv with hv
        subst hv
        refine ⟨rfl, by omega, by omega⟩
      · rw [if_neg hc] at hv
        simp [dlookup] at hv
  · intro h
    have hl := shortLoop_lookup_none (tomorrow_assigned ft dir) (tomorrow_flat ft)
      [] rk h
    rw [show tomorrow_shortages ft dir =
      shortLoop (tomorrow_assigned ft dir) (tomorrow_flat ft) [] from rfl, hl]
    rfl

/-- The end-to-end forecast of the spec scenario: 100 incoming pallets, 3750
order cases, 20 staged pallets. -/
def forecastScenario : ForecastData :=
  ⟨PyQ.ofInt 100, PyQ.ofInt 0, PyQ.ofInt 3750, PyQ.ofInt 20, PyQ.ofInt 0⟩

/-- C5 witness: the shortage specification applied to the scenario forecast
with an empty directory at the role "receiver" (required 1, assigned 0), so
a shortage entry is present. -/
theorem run_shortages_iff_witness :
    (dlookup (tomorrow_shortages forecastScenario []) (str "receiver")).isSome :=
  ((run_shortages_iff forecastScenario [] (str "receiver")).1 1
    (by decide)).1.mpr (by decide)

/-- C6: if the forecast fetch for either planning day yields an empty result
(the empty dict produced when a collaborator call raises), `run_scheduler`
returns no schedule at all rather than a partially filled one. -/
theorem run_scheduler_none_on_empty_forecast
    (forecast_tomorrow forecast_day_after : Option ForecastData)
    (dir : List Employee)
    (h : forecast_tomorrow = none ∨ forecast_day_after = none) :
    run_scheduler forecast_tomorrow forecast_day_after dir = none := by
  rcases h with rfl | rfl
  · cases forecast_day_after <;> rfl
  · cases forecast_tomorrow <;> rfl

/-- C6 witness: the abort theorem applied with tomorrow's fetch empty and a
normal day-after forecast. -/
theorem run_scheduler_none_on_empty_forecast_witness :
    run_scheduler none (some forecastScenario) [] = none :=
  run_scheduler_none_on_empty_forecast none (some forecastScenario) []
    (Or.inl rfl)
